import Mathlib

/-!
Verification development for the honeypot service: a shallow embedding of
the entity extractor (app/extractor.py), the merge layer, the mood
controller (app/persona.py), the hive-mind registry (app/database.py) and
the inactivity-monitor lifecycle (app/main.py), with theorems about the
documented properties.

Modelling conventions: Python strings are Lean `String`; `re.findall` is
implemented by a small backtracking engine specialised to the character
classes the source patterns use (`\w` is modelled as ASCII alphanumeric or
underscore, `\s` as `Char.isWhitespace`); machine floats in risk scores are
modelled as Nat multiples of one tenth (the source only adds the decimal
literals 0.5 and 0.1);
wall-clock timestamps are `Nat`; `random.random() < 0.4` in the mood
controller is an explicit Bool parameter; `list(set(..))` is modelled as
keep-first deduplication (the set order in CPython is unspecified, and no
theorem below depends on that order).
-/

namespace Honeypot

/-! ### Character classes used by the compiled patterns in app/extractor.py -/

/-- Python str.lower, written over the character list so the kernel can
evaluate it. -/
def lowerStr (s : String) : String := String.mk (s.toList.map Char.toLower)

/-- Python str.strip with the default whitespace set. -/
def trimStr (s : String) : String :=
  String.mk (((s.toList.dropWhile Char.isWhitespace).reverse.dropWhile
    Char.isWhitespace).reverse)

def wordChar (c : Char) : Bool := c.isAlphanum || c = '_'

inductive CC where
  | digit
  | sixNine
  | wordDotDash
  | spaceDash
  | urlChar
  | slashColonWs
  | dashSpaceHash
  | upAlnumSlashDashCI
  | digitComma
  | ws
deriving DecidableEq, Repr

def CC.mem : CC → Char → Bool
  | .digit, c => c.isDigit
  | .sixNine, c => '6' ≤ c && c ≤ '9'
  | .wordDotDash, c => wordChar c || c = '.' || c = '-'
  | .spaceDash, c => c.isWhitespace || c = '-'
  | .urlChar, c =>
      !(c.isWhitespace || [60, 62, 34, 123, 125, 124, 94, 96, 91, 93].contains c.toNat)
  | .slashColonWs, c => c = '/' || c = ':' || c.isWhitespace
  | .dashSpaceHash, c => c = '-' || c.isWhitespace || c = '#'
  | .upAlnumSlashDashCI, c =>
      ('A' ≤ c && c ≤ 'Z') || ('a' ≤ c && c ≤ 'z') || c.isDigit || c = '/' || c = '-'
  | .digitComma, c => c.isDigit || c = ','
  | .ws, c => c.isWhitespace

/-! ### A backtracking matcher with Python `re` leftmost-greedy semantics -/

inductive RE where
  | eps
  | lit (c : Char)
  | litCI (c : Char)
  | cls (cc : CC)
  | seq (a b : RE)
  | alt (a b : RE)
  | opt (a : RE)
  | repCls (cc : CC) (lo : Nat) (hi : Option Nat)
  | bound
  | nla (cc : CC)
  | nlb (cc : CC)
  | grp (a : RE)
deriving Repr

/-- Result of a match attempt: end position, previous character at that
position, remaining input, and the capture of group 1 when present. -/
abbrev MRes := Nat × Option Char × List Char × Option (Nat × Nat)

/-- States reachable by consuming 0, 1, 2, ... characters of the class
(bounded by `hi`), in increasing order of consumption. -/
def clsStates (cc : CC) : Option Nat → Nat → Option Char → List Char →
    List (Nat × Option Char × List Char)
  | hi, pos, prev, rest =>
    (pos, prev, rest) ::
      match rest with
      | [] => []
      | c :: cs =>
        if hi = some 0 then []
        else if cc.mem c then clsStates cc (Option.map (· - 1) hi) (pos + 1) (some c) cs
        else []

def firstSome (f : α → Option β) : List α → Option β
  | [] => none
  | a :: as => (f a).orElse (fun _ => firstSome f as)

def matchR : RE → Nat → Option Char → List Char → Option (Nat × Nat) →
    (Nat → Option Char → List Char → Option (Nat × Nat) → Option MRes) → Option MRes
  | .eps, pos, prev, rest, g, k => k pos prev rest g
  | .lit c, pos, _, rest, g, k =>
    match rest with
    | [] => none
    | x :: xs => if x = c then k (pos + 1) (some x) xs g else none
  | .litCI c, pos, _, rest, g, k =>
    match rest with
    | [] => none
    | x :: xs => if x.toLower = c.toLower then k (pos + 1) (some x) xs g else none
  | .cls cc, pos, _, rest, g, k =>
    match rest with
    | [] => none
    | x :: xs => if cc.mem x then k (pos + 1) (some x) xs g else none
  | .seq a b, pos, prev, rest, g, k =>
    matchR a pos prev rest g (fun p2 pr2 r2 g2 => matchR b p2 pr2 r2 g2 k)
  | .alt a b, pos, prev, rest, g, k =>
    (matchR a pos prev rest g k).orElse (fun _ => matchR b pos prev rest g k)
  | .opt a, pos, prev, rest, g, k =>
    (matchR a pos prev rest g k).orElse (fun _ => k pos prev rest g)
  | .repCls cc lo hi, pos, prev, rest, g, k =>
    firstSome (fun s => k s.1 s.2.1 s.2.2 g) (((clsStates cc hi pos prev rest).drop lo).reverse)
  | .bound, pos, prev, rest, g, k =>
    let pw := match prev with | none => false | some c => wordChar c
    let nw := match rest with | [] => false | c :: _ => wordChar c
    if pw ≠ nw then k pos prev rest g else none
  | .nla cc, pos, prev, rest, g, k =>
    match rest with
    | [] => k pos prev rest g
    | c :: _ => if cc.mem c then none else k pos prev rest g
  | .nlb cc, pos, prev, rest, g, k =>
    match prev with
    | none => k pos prev rest g
    | some c => if cc.mem c then none else k pos prev rest g
  | .grp a, pos, prev, rest, g, k =>
    matchR a pos prev rest g (fun p2 pr2 r2 _ => k p2 pr2 r2 (some (pos, p2)))

def sliceStr (chars : List Char) (a b : Nat) : String :=
  String.mk ((chars.drop a).take (b - a))

/-- Scan driver for `re.findall`: leftmost non-overlapping matches; when the
pattern has a capturing group, Python findall returns the group text. -/
def scanGo (re : RE) (useGroup : Bool) (chars : List Char) :
    Nat → Nat → Option Char → List Char → List String
  | 0, _, _, _ => []
  | fuel + 1, pos, prev, rest =>
    match matchR re pos prev rest none (fun p pr r g => some (p, pr, r, g)) with
    | some (endPos, pr, r, g) =>
      let v :=
        if useGroup then
          match g with
          | some ab => sliceStr chars ab.1 ab.2
          | none => ""
        else sliceStr chars pos endPos
      if pos < endPos then v :: scanGo re useGroup chars fuel endPos pr r
      else
        match rest with
        | [] => [v]
        | c :: cs => v :: scanGo re useGroup chars fuel (pos + 1) (some c) cs
    | none =>
      match rest with
      | [] => []
      | c :: cs => scanGo re useGroup chars fuel (pos + 1) (some c) cs

def findAll (re : RE) (useGroup : Bool) (s : String) : List String :=
  scanGo re useGroup s.toList (s.toList.length + 1) 0 none s.toList

def reSeq (l : List RE) : RE := l.foldr RE.seq RE.eps

def reStr (s : String) : RE := reSeq (s.toList.map RE.lit)

def reStrCI (s : String) : RE := reSeq (s.toList.map RE.litCI)

/-! ### The compiled patterns of app/extractor.py -/

def PHONE_PATTERN : RE :=
  reSeq [.nlb .digit,
         .opt (reSeq [.lit '+', .lit '9', .lit '1', .repCls .spaceDash 0 none]),
         .cls .sixNine, .repCls .digit 9 (some 9), .nla .digit]

def BANK_ACCOUNT_PATTERN : RE :=
  reSeq [.nlb .digit, .repCls .digit 9 (some 18), .nla .digit]

def URL_PATTERN : RE :=
  .alt (reSeq [reStrCI "http", .opt (.litCI 's'), reStr "://", .repCls .urlChar 1 none])
       (reSeq [reStrCI "www", .lit '.', .repCls .urlChar 1 none])

def AT_PATTERN : RE :=
  reSeq [.bound, .repCls .wordDotDash 1 none, .lit '@', .repCls .wordDotDash 1 none, .bound]

def CASE_ID_PATTERN : RE :=
  reSeq [reStrCI "case", .opt (.cls .spaceDash),
         .alt (reStrCI "id") (.alt (reStrCI "number") (reSeq [reStrCI "no", .opt (.lit '.')])),
         .repCls .slashColonWs 1 none,
         .grp (.repCls .upAlnumSlashDashCI 6 none)]

def POLICY_PATTERN : RE :=
  reSeq [reStrCI "policy", .opt (.cls .dashSpaceHash),
         .opt (.alt (reStrCI "no") (reStrCI "number")),
         .repCls .slashColonWs 1 none,
         .grp (.repCls .upAlnumSlashDashCI 3 none)]

def ORDER_PATTERN : RE :=
  reSeq [reStrCI "order", .opt (.cls .dashSpaceHash),
         .opt (.alt (reStrCI "no") (.alt (reStrCI "number") (reStrCI "id"))),
         .repCls .slashColonWs 1 none,
         .grp (.repCls .upAlnumSlashDashCI 3 none)]

/-- The amount pattern; the currency-symbol alternative is the literal
three-character sequence present in the source file (bytes U+201A U+00C7
U+03C0). -/
def AMOUNT_PATTERN : RE :=
  reSeq [.alt (reSeq [reStrCI "Rs", .opt (.lit '.')])
              (.alt (reStrCI "INR")
                    (reSeq [.lit (Char.ofNat 0x201A), .lit (Char.ofNat 0xC7),
                            .lit (Char.ofNat 0x3C0)])),
         .repCls .ws 0 none,
         .grp (reSeq [.repCls .digitComma 1 none,
                      .opt (reSeq [.lit '.', .repCls .digit 2 (some 2)])])]

/-- The extra hyphenated phone scan done inline in regex_extract. -/
def PHONE_HYPHEN_PATTERN : RE :=
  reSeq [.lit '+', .lit '9', .lit '1', .opt (.cls .spaceDash),
         .repCls .digit 4 (some 5), .opt (.cls .spaceDash), .repCls .digit 5 (some 6)]

def urlFindall (text : String) : List String := findAll URL_PATTERN false text
def atFindall (text : String) : List String := findAll AT_PATTERN false text
def phoneFindall (text : String) : List String := findAll PHONE_PATTERN false text
def phoneHyphenFindall (text : String) : List String := findAll PHONE_HYPHEN_PATTERN false text
def bankFindall (text : String) : List String := findAll BANK_ACCOUNT_PATTERN false text
def caseFindall (text : String) : List String := findAll CASE_ID_PATTERN true text
def policyFindall (text : String) : List String := findAll POLICY_PATTERN true text
def orderFindall (text : String) : List String := findAll ORDER_PATTERN true text
def amountFindall (text : String) : List String := findAll AMOUNT_PATTERN true text

/-! ### classify_at_sign_match (app/extractor.py lines 53-83) -/

def REAL_TLDS : List String :=
  ["com", "in", "org", "net", "co", "io", "edu", "gov", "info", "biz",
   "me", "us", "uk", "ca", "au", "de", "fr", "jp", "cn", "ru", "br",
   "xyz", "online", "site", "tech", "app", "dev", "cloud"]

/-- The characters after the last occurrence of `sep` (the second component
of a Python rsplit with maxsplit 1, assuming `sep` occurs). -/
def afterLast (sep : Char) (cs : List Char) : List Char :=
  (cs.reverse.takeWhile (fun c => c ≠ sep)).reverse

def classify_at_sign_match (m : String) : String :=
  if !(m.toList.contains '@') then "unknown"
  else
    let domain := afterLast '@' m.toList
    let domainLower := domain.map Char.toLower
    if domain.contains '.' then
      let tld := String.mk (afterLast '.' domainLower)
      if REAL_TLDS.contains tld then "email" else "email"
    else "upi"

/-! ### regex_extract (app/extractor.py lines 86-181) -/

/-- The flattened entity dictionary built by regex_extract and
merge_extraction_results. The regex layer leaves referenceNumbers,
organizationClaimed, infoRequested and rawExtraction at their falsy
defaults, exactly as a missing key behaves under dict.get in the merge. -/
structure Bundle where
  bankAccounts : List String
  upiIds : List String
  phishingLinks : List String
  phoneNumbers : List String
  emailAddresses : List String
  caseIds : List String
  policyNumbers : List String
  orderNumbers : List String
  amounts : List String
  suspiciousKeywords : List String
  referenceNumbers : List String
  organizationClaimed : String
  infoRequested : List String
  rawExtraction : String
deriving DecidableEq, Repr

def emptyBundle : Bundle :=
  ⟨[], [], [], [], [], [], [], [], [], [], [], "", [], ""⟩

def isPrefixList : List Char → List Char → Bool
  | [], _ => true
  | _ :: _, [] => false
  | a :: as, b :: bs => a = b && isPrefixList as bs

/-- Python substring containment: needle in hay. -/
def isSubstr (n : List Char) : List Char → Bool
  | [] => isPrefixList n []
  | c :: t => isPrefixList n (c :: t) || isSubstr n t

def appendIfNew (l : List String) (v : String) : List String :=
  if l.contains v then l else l ++ [v]

/-- Keep-first model of list(set(..)) deduplication. -/
def dedupExact (xs : List String) : List String := xs.foldl appendIfNew []

/-- The at-match loop of regex_extract: skip matches embedded in a URL,
then route by classify_at_sign_match with exact-membership deduplication. -/
def atClassifyLoop (urls : List String) : List String → List String → List String →
    List String × List String
  | [], u, e => (u, e)
  | m :: rest, u, e =>
    if urls.any (fun x => isSubstr m.toList x.toList) then atClassifyLoop urls rest u e
    else if classify_at_sign_match m == "upi" then atClassifyLoop urls rest (appendIfNew u m) e
    else if classify_at_sign_match m == "email" then atClassifyLoop urls rest u (appendIfNew e m)
    else atClassifyLoop urls rest u e

def digitsOnly (s : String) : String := String.mk (s.toList.filter Char.isDigit)

def extractPhones (text : String) : List String :=
  ((dedupExact (phoneFindall text ++ phoneHyphenFindall text)).map trimStr).filter
    (fun p => !(p == ""))

def extractBanks (text : String) (phoneDigits : List String) : List String :=
  (bankFindall text).filter (fun b =>
    !(phoneDigits.contains b) && decide (9 ≤ b.length) &&
    !(decide (b.length = 10) && ['6', '7', '8', '9'].contains (b.toList.headD ' ')))

def scamKeywords : List String :=
  ["urgent", "immediately", "blocked", "suspended", "verify", "click",
   "upi", "account", "otp", "kyc", "update", "bank",
   "police", "legal action", "arrest", "it department",
   "won", "lottery", "prize", "cashback", "reward",
   "job offer", "work from home", "part time",
   "anydesk", "teamviewer", "remote access"]

def extractKeywords (lower : String) : List String :=
  scamKeywords.foldl
    (fun acc kw => if isSubstr kw.toList lower.toList then appendIfNew acc kw else acc) []

def regex_extract (text : String) : Bundle :=
  let urls := urlFindall text
  let ue := atClassifyLoop urls (atFindall text) [] []
  let phones := extractPhones text
  { bankAccounts := extractBanks text (phones.map digitsOnly)
    upiIds := ue.1
    phishingLinks := dedupExact urls
    phoneNumbers := phones
    emailAddresses := ue.2
    caseIds := dedupExact (caseFindall text)
    policyNumbers := dedupExact (policyFindall text)
    orderNumbers := dedupExact (orderFindall text)
    amounts := dedupExact (amountFindall text)
    suspiciousKeywords := extractKeywords (lowerStr text)
    referenceNumbers := []
    organizationClaimed := ""
    infoRequested := []
    rawExtraction := "" }

/-! ### merge_extraction_results (app/extractor.py lines 184-243) -/

/-- The per-key union loop: regex values first, then LLM values, keeping a
value only when it is truthy and its lowercase has not been seen. -/
def mergeKeyGo (seen : List String) : List String → List String
  | [] => []
  | v :: rest =>
    if !(v == "") && !(seen.contains (lowerStr v)) then v :: mergeKeyGo (lowerStr v :: seen) rest
    else mergeKeyGo seen rest

def mergeKey (a b : List String) : List String := mergeKeyGo [] (a ++ b)

/-- Append each value whose lowercase is not already present (the guarded
append in the post-merge reclassification passes). -/
def appendNewCI (base adds : List String) : List String :=
  adds.foldl
    (fun acc a => if (acc.map lowerStr).contains (lowerStr a) then acc else acc ++ [a]) base

/-- The two post-merge reclassification passes over the unioned upiIds and
emailAddresses lists, in source order. -/
def mergedUpisEmails (u e : List String) : List String × List String :=
  let reclassUpis := e.filter (fun x => classify_at_sign_match x == "upi")
  let remainingEmails := e.filter (fun x => !(classify_at_sign_match x == "upi"))
  let upis1 := appendNewCI u reclassUpis
  let reclassEmails := upis1.filter (fun x => classify_at_sign_match x == "email")
  let remainingUpis := upis1.filter (fun x => !(classify_at_sign_match x == "email"))
  let emails1 := appendNewCI remainingEmails reclassEmails
  (remainingUpis, emails1)

def merge_extraction_results (rx llm : Bundle) : Bundle :=
  let ue := mergedUpisEmails (mergeKey rx.upiIds llm.upiIds)
    (mergeKey rx.emailAddresses llm.emailAddresses)
  { bankAccounts := mergeKey rx.bankAccounts llm.bankAccounts
    upiIds := ue.1
    phishingLinks := mergeKey rx.phishingLinks llm.phishingLinks
    phoneNumbers := mergeKey rx.phoneNumbers llm.phoneNumbers
    emailAddresses := ue.2
    caseIds := mergeKey rx.caseIds llm.caseIds
    policyNumbers := mergeKey rx.policyNumbers llm.policyNumbers
    orderNumbers := mergeKey rx.orderNumbers llm.orderNumbers
    amounts := mergeKey rx.amounts llm.amounts
    suspiciousKeywords := mergeKey rx.suspiciousKeywords llm.suspiciousKeywords
    referenceNumbers :=
      if llm.referenceNumbers ≠ [] then llm.referenceNumbers else rx.referenceNumbers
    organizationClaimed :=
      if llm.organizationClaimed ≠ "" then llm.organizationClaimed else rx.organizationClaimed
    infoRequested := if llm.infoRequested ≠ [] then llm.infoRequested else rx.infoRequested
    rawExtraction := llm.rawExtraction }

/-! ### analyze_conversation_for_termination (app/extractor.py lines 512-535)

The history argument only enters through its length, so the embedding takes
the length directly; the intel score is held in exact quarter units. -/

/-- The intel score counted in quarters (0 to 4): the Python float is
score / 4.0, and its threshold 0.75 is 3 quarters. -/
def intelScore (e : Bundle) : Nat :=
  (if 0 < e.bankAccounts.length then 1 else 0) +
  (if 0 < e.upiIds.length then 1 else 0) +
  (if 0 < e.phoneNumbers.length then 1 else 0) +
  (if 0 < e.phishingLinks.length then 1 else 0)

/-- The returned completeness score is in quarter units (see intelScore). -/
def analyze_conversation_for_termination (historyLen : Nat) (e : Bundle) :
    Bool × String × Nat :=
  if historyLen = 0 then (false, "CONTINUE", 0)
  else
    let score := intelScore e
    if 3 ≤ score ∧ 5 ≤ historyLen then (true, "INTEL_COMPLETE", score)
    else if 20 ≤ historyLen then (true, "MAX_TURNS", score)
    else (false, "CONTINUE", score)

/-! ### PersonaEngine mood controller (app/persona.py)

State of the engine fields touched by update_mood; the `random.random()`
draw for the jealousy trigger is passed in as `randJealousy`, and the
hive-mind alert argument is modelled by its truthiness. -/

structure MoodState where
  currentMood : String
  activePersonaKey : String
  handoffTriggered : Bool
  steerToUpi : Bool
  moodHistory : List (String × String × String)
deriving DecidableEq, Repr

def initialMoodState : MoodState := ⟨"NEUTRAL", "elderly", false, false, []⟩

def mood_transitions : List (String × List (String × String)) :=
  [("NEUTRAL", [("threat", "WORRIED"), ("reward", "EXCITED"), ("request_info", "CONFUSED"),
                ("pressure", "ANXIOUS"), ("reassurance", "NEUTRAL")]),
   ("WORRIED", [("pressure", "ANXIOUS"), ("more_pressure", "COOPERATIVE"),
                ("reassurance", "HOPEFUL"), ("technical", "CONFUSED")]),
   ("EXCITED", [("payment_request", "CONFUSED"), ("verification", "COOPERATIVE"),
                ("delay", "IMPATIENT")]),
   ("CONFUSED", [("pressure", "ANXIOUS"), ("help", "COOPERATIVE"),
                 ("reassurance", "HOPEFUL")]),
   ("ANXIOUS", [("pressure", "COOPERATIVE"), ("reassurance", "HOPEFUL"),
                ("technical", "OVERWHELMED")]),
   ("HOPEFUL", [("payment_request", "COOPERATIVE"), ("delay", "IMPATIENT")]),
   ("COOPERATIVE", [("success", "RELIEVED"), ("failure", "WORRIED"),
                    ("more_requests", "TIRED")]),
   ("IMPATIENT", [("delay", "FRUSTRATED"), ("resolution", "RELIEVED")]),
   ("OVERWHELMED", [("help", "COOPERATIVE"), ("pressure", "FRUSTRATED")]),
   ("FRUSTRATED", [("resolution", "RELIEVED"), ("more_pressure", "GIVING_UP")]),
   ("TIRED", [("pressure", "GIVING_UP"), ("help", "HOPEFUL")]),
   ("FAKE_ERROR", [("pressure", "ANXIOUS"), ("new_account", "COOPERATIVE"),
                   ("reassurance", "WORRIED")]),
   ("AGGRESSIVE", [("threat", "AGGRESSIVE"), ("apology", "SKEPTICAL"),
                   ("hangup", "VICTORIOUS")]),
   ("SKEPTICAL", [("explanation", "AGGRESSIVE"), ("proof", "SKEPTICAL")]),
   ("BLACK_OPS_GREED", [("agreement", "BLACK_OPS_CULT"), ("suspicion", "BLACK_OPS_GREED")]),
   ("BLACK_OPS_FEAR", [("help", "COOPERATIVE"), ("panic", "BLACK_OPS_FEAR")]),
   ("BLACK_OPS_REVERSE", [("payment", "VICTORIOUS"), ("refusal", "BLACK_OPS_GREED")]),
   ("BLACK_OPS_JEALOUSY", [("denial", "BLACK_OPS_REVERSE"), ("proof", "SKEPTICAL")]),
   ("BLACK_OPS_BANK_FISH", [("new_account", "FAKE_ERROR"),
                            ("same_account", "BLACK_OPS_REVERSE")])]

def lookupAssoc (l : List (String × α)) (key : String) : Option α :=
  (l.find? (fun p => p.1 == key)).map (·.2)

/-- The transition table for a mood including the dynamically added
Black-Ops entries (none of the static keys collide with them). -/
def transitionsFor (mood : String) : List (String × String) :=
  ((lookupAssoc mood_transitions mood).getD []) ++
    [("trigger_greed", "BLACK_OPS_GREED"), ("trigger_fear", "BLACK_OPS_FEAR"),
     ("trigger_reverse", "BLACK_OPS_REVERSE"), ("trigger_jealousy", "BLACK_OPS_JEALOUSY"),
     ("trigger_bank_fish", "BLACK_OPS_BANK_FISH")]

def anyWordIn (words : List String) (msgLower : String) : Bool :=
  words.any (fun w => isSubstr w.toList msgLower.toList)

/-- The trigger loop of update_mood: the steering trigger only sets a flag
and continues, any other trigger found in the transition table stops the
loop (Python break) whether or not the mood actually changes. -/
def applyTriggers (st : MoodState) : List String → MoodState
  | [] => st
  | t :: rest =>
    if t == "steer_to_upi" then applyTriggers { st with steerToUpi := true } rest
    else
      match lookupAssoc (transitionsFor st.currentMood) t with
      | some newMood =>
        if newMood ≠ st.currentMood then
          { st with currentMood := newMood,
                    moodHistory := st.moodHistory ++ [(st.currentMood, newMood, t)] }
        else st
      | none => applyTriggers st rest

def cooperativeLeaning : List String := ["COOPERATIVE", "ANXIOUS", "HOPEFUL", "WORRIED"]

/-- The per-turn trigger list of update_mood, in source append order. -/
def moodTriggers (st : MoodState) (msgLower : String) (hasFinancial : Bool)
    (randJealousy : Bool) : List String :=
  (if hasFinancial && cooperativeLeaning.contains st.currentMood then ["failure"] else []) ++
  (if anyWordIn ["block", "suspend", "police", "legal", "arrest", "case", "court"] msgLower
   then ["threat"] else []) ++
  (if anyWordIn ["won", "prize", "reward", "bonus", "gift", "free", "cash"] msgLower
   then ["reward"] else []) ++
  (if anyWordIn ["immediately", "urgent", "now", "hurry", "asap", "quick"] msgLower
   then ["pressure"] else []) ++
  (if anyWordIn ["upi", "account", "number", "otp", "pin", "password", "cvv"] msgLower
   then ["request_info"] else []) ++
  (if anyWordIn ["link", "click", "download", "install", "verify", "app"] msgLower
   then ["technical"] else []) ++
  (if anyWordIn ["trust me", "genuine", "real", "authentic", "official"] msgLower
   then ["reassurance"] else []) ++
  (if anyWordIn ["download", "install", "anydesk", "teamviewer", "card", "cvv", "otp"] msgLower
      && ["CONFUSED", "NEUTRAL", "WORRIED"].contains st.currentMood
   then ["steer_to_upi"] else []) ++
  (if anyWordIn ["limit", "business", "merchant", "trust"] msgLower
      && !(["BLACK_OPS_GREED", "BLACK_OPS_FEAR"].contains st.currentMood)
      && isSubstr "trust".toList msgLower.toList
   then ["trigger_greed"] else []) ++
  (if anyWordIn ["click", "press", "button"] msgLower
      && !(st.currentMood == "BLACK_OPS_FEAR")
   then ["trigger_fear"] else []) ++
  (if anyWordIn ["why", "reason", "error", "screenshot"] msgLower
      && st.currentMood == "FAKE_ERROR"
   then ["trigger_reverse"] else []) ++
  (if anyWordIn ["send", "pay", "transfer", "deposit"] msgLower
      && !(["BLACK_OPS_JEALOUSY", "BLACK_OPS_REVERSE"].contains st.currentMood)
      && randJealousy
   then ["trigger_jealousy"] else []) ++
  (if anyWordIn ["sbi", "hdfc", "icici", "axis", "kotak", "pnb"] msgLower
      && !(["BLACK_OPS_BANK_FISH"].contains st.currentMood)
      && st.currentMood == "FAKE_ERROR"
   then ["trigger_bank_fish"] else [])

/-- PersonaEngine._update_mood (app/persona.py lines 258-444). -/
def update_mood (st : MoodState) (scammerMessage : String) (currentEntities : Option Bundle)
    (hiveAlert : Bool) (randJealousy : Bool) : MoodState :=
  let msgLower := lowerStr scammerMessage
  if !st.handoffTriggered &&
     ((anyWordIn ["police", "jail", "arrest", "warrant"] msgLower &&
       (st.currentMood == "WORRIED" || st.currentMood == "ANXIOUS")) || hiveAlert) then
    { st with activePersonaKey := "son", handoffTriggered := true, currentMood := "AGGRESSIVE" }
  else
    let hasFinancial :=
      match currentEntities with
      | none => false
      | some e =>
        !(e.bankAccounts.isEmpty && e.upiIds.isEmpty && e.phishingLinks.isEmpty)
    applyTriggers st (moodTriggers st msgLower hasFinancial randJealousy)

/-- PersonaEngine.reset_mood (app/persona.py lines 638-642). -/
def reset_mood (st : MoodState) : MoodState :=
  { st with currentMood := "NEUTRAL", moodHistory := [] }

/-- A whole conversation of update_mood turns, oldest first. -/
def applyTurns (st : MoodState) : List (String × Option Bundle × Bool × Bool) → MoodState
  | [] => st
  | t :: rest => applyTurns (update_mood st t.1 t.2.1 t.2.2.1 t.2.2.2) rest

/-! ### Hive-mind registry (app/database.py lines 306-361)

The known_scammers table is a list of rows; the value column is UNIQUE, so
lookups and the UPDATE statement touch the first (and only) matching row.
Timestamps are abstract Nat instants. -/

structure HiveRecord where
  value : String
  etype : String
  firstSeen : Nat
  lastSeen : Nat
  sightingCount : Nat
  riskTenths : Nat
deriving DecidableEq, Repr

/-- The SELECT ... WHERE value = ? lookup: the first (by UNIQUE constraint,
only) row whose value column matches. -/
def findRow : List HiveRecord → String → Option HiveRecord
  | [], _ => none
  | r :: rest, v => if r.value == v then some r else findRow rest v

def updateFirst : List HiveRecord → String → Nat → List HiveRecord
  | [], _, _ => []
  | r :: rest, v, now =>
    if r.value == v then
      { r with sightingCount := r.sightingCount + 1, lastSeen := now,
               riskTenths := r.riskTenths + 1 } :: rest
    else r :: updateFirst rest v now

/-- update_hive_mind: insert with sightingCount 1 and riskScore 0.5 when the
value is unseen, otherwise bump sightingCount by 1, refresh last_seen and
add 0.1 to risk_score. The risk score is held in tenths (a Nat), so the
inserted 0.5 is 5 tenths and each repeat adds 1 tenth, exactly the decimal
arithmetic of the source. -/
def update_hive_mind (reg : List HiveRecord) (v etype : String) (now : Nat) :
    List HiveRecord :=
  match findRow reg v with
  | some _ => updateFirst reg v now
  | none => reg ++ [⟨v, etype, now, now, 1, 5⟩]

structure HiveLookup where
  found : Bool
  firstSeen : Nat
  sightingCount : Nat
  riskTenths : Nat
deriving DecidableEq, Repr

def check_hive_mind (reg : List HiveRecord) (v : String) : HiveLookup :=
  match findRow reg v with
  | some r => ⟨true, r.firstSeen, r.sightingCount, r.riskTenths⟩
  | none => ⟨false, 0, 0, 0⟩

def sightingCountOf (reg : List HiveRecord) (v : String) : Nat :=
  match findRow reg v with
  | some r => r.sightingCount
  | none => 0

/-- A sequence of record calls (value, kind, instant), oldest first. -/
def recordAll (reg : List HiveRecord) : List (String × String × Nat) → List HiveRecord
  | [] => reg
  | c :: cs => recordAll (update_hive_mind reg c.1 c.2.1 c.2.2) cs

/-! ### Inactivity monitor (app/main.py lines 374-476 and 560-615)

Two complementary views. First, the body of
monitor_inactivity_and_callback as the ordered trace of its observable
steps once the sleep returns, determined by the four guards it evaluates;
second, a state-transition view of the per-session generation bookkeeping
used by process_background_tasks and a firing monitor. -/

inductive MonEvent where
  | checkSessionActive
  | checkGeneration
  | checkCallbackSent
  | checkElapsed
  | buildNotes
  | netSendCallback
  | setCallbackSentFlag
  | persistSessionState
deriving DecidableEq, Repr

/-- The guard `superseded` is the comparison stored_ts > monitor_start_ts
made by the fired monitor against the generation recorded in
active_sessions; `elapsedOk` is the elapsed-time check against the timeout
minus the 2-second buffer. -/
def monitor_inactivity_and_callback (sessionActive superseded callbackSent elapsedOk : Bool) :
    List MonEvent :=
  if !sessionActive then [.checkSessionActive]
  else if superseded then [.checkSessionActive, .checkGeneration]
  else if callbackSent then [.checkSessionActive, .checkGeneration, .checkCallbackSent]
  else if elapsedOk then
    [.checkSessionActive, .checkGeneration, .checkCallbackSent, .checkElapsed,
     .buildNotes, .netSendCallback, .setCallbackSentFlag, .persistSessionState]
  else [.checkSessionActive, .checkGeneration, .checkCallbackSent, .checkElapsed]

def idxOfEvent (e : MonEvent) : List MonEvent → Nat
  | [] => 0
  | x :: xs => if x = e then 0 else idxOfEvent e xs + 1

/-- Per-session lifecycle state: the latest monitor generation recorded in
active_sessions, the callback_sent flag, and a counter of dispatched
reports (for stating at-most-once facts). -/
structure SessionMon where
  activeTs : Option Nat
  callbackSent : Bool
  reportsSent : Nat
deriving DecidableEq, Repr

/-- process_background_tasks records a fresh monitor generation. -/
def startMonitor (s : SessionMon) (ts : Nat) : SessionMon := { s with activeTs := some ts }

/-- A monitor with generation `myTs` firing after its sleep: skip when the
session has no recorded generation, when a newer generation was recorded,
or when the callback was already sent; otherwise dispatch when the elapsed
check passes and mark the callback sent. -/
def fireMonitor (s : SessionMon) (myTs : Nat) (elapsedOk : Bool) : SessionMon :=
  match s.activeTs with
  | none => s
  | some stored =>
    if myTs < stored then s
    else if s.callbackSent then s
    else if elapsedOk then { s with callbackSent := true, reportsSent := s.reportsSent + 1 }
    else s

/-! ### Concrete fixtures used by witnesses and counterexamples -/

def fullIntelBundle : Bundle :=
  { emptyBundle with
      bankAccounts := ["9876543210123"], upiIds := ["scam@fakebank"],
      phoneNumbers := ["+91-9876543210"], phishingLinks := ["http://evil.example"] }

def misclassifiedBundle : Bundle := { emptyBundle with upiIds := ["a@b.com"] }

def upiOnlyBundle : Bundle := { emptyBundle with upiIds := ["pay@ybl"] }

def financialBundle : Bundle := { emptyBundle with bankAccounts := ["123456789"] }

def coopMoodState : MoodState := ⟨"COOPERATIVE", "elderly", false, false, []⟩

def ciDupText : String := "scam@fakebank Scam@fakebank"

def oneRowRegistry : List HiveRecord := [⟨"pay@ybl", "upiIds", 3, 3, 1, 5⟩]

def dispatchTrace : List MonEvent := monitor_inactivity_and_callback true false false true

/-- Well-formedness of one entity kind as the merge loop leaves it: no
falsy (empty) values and no two values equal after lowercasing. -/
def okCI (xs : List String) : Prop :=
  (∀ x ∈ xs, x ≠ "") ∧ (xs.map lowerStr).Nodup

/-- The invariant merge_extraction_results both relies on and
re-establishes: every kind is okCI and the upiIds and emailAddresses sets
are consistent with classify_at_sign_match. -/
def bundleInv (b : Bundle) : Prop :=
  okCI b.bankAccounts ∧ okCI b.upiIds ∧ okCI b.phishingLinks ∧ okCI b.phoneNumbers ∧
  okCI b.emailAddresses ∧ okCI b.caseIds ∧ okCI b.policyNumbers ∧ okCI b.orderNumbers ∧
  okCI b.amounts ∧ okCI b.suspiciousKeywords ∧
  (∀ v ∈ b.upiIds, classify_at_sign_match v ≠ "email") ∧
  (∀ v ∈ b.emailAddresses, classify_at_sign_match v ≠ "upi")

/-! ## Helper lemmas -/

theorem nodup_snoc {α : Type} [DecidableEq α] (l : List α) (v : α) (hv : v ∉ l)
    (h : l.Nodup) : (l ++ [v]).Nodup := by
  rw [List.nodup_append]
  refine ⟨h, List.nodup_singleton v, ?_⟩
  simp [List.disjoint_singleton]
  exact hv

theorem appendIfNew_nodup (l : List String) (v : String) (h : l.Nodup) :
    (appendIfNew l v).Nodup := by
  unfold appendIfNew
  split
  · exact h
  · rename_i hc
    exact nodup_snoc l v (fun hm => hc (List.elem_iff.mpr hm)) h

theorem atClassifyLoop_nodup (urls ms : List String) (u e : List String)
    (hu : u.Nodup) (he : e.Nodup) :
    (atClassifyLoop urls ms u e).1.Nodup ∧ (atClassifyLoop urls ms u e).2.Nodup := by
  induction ms generalizing u e with
  | nil => exact ⟨hu, he⟩
  | cons m rest ih =>
    unfold atClassifyLoop
    split
    · exact ih u e hu he
    · split
      · exact ih _ e (appendIfNew_nodup u m hu) he
      · split
        · exact ih u _ hu (appendIfNew_nodup e m he)
        · exact ih u e hu he

theorem foldl_appendIfNew_nodup (p : String → Bool) (xs : List String)
    (acc : List String) (h : acc.Nodup) :
    (xs.foldl (fun acc kw => if p kw then appendIfNew acc kw else acc) acc).Nodup := by
  induction xs generalizing acc with
  | nil => exact h
  | cons x rest ih =>
    simp only [List.foldl_cons]
    split
    · exact ih _ (appendIfNew_nodup acc x h)
    · exact ih _ h

theorem dedupExact_nodup (xs : List String) : (dedupExact xs).Nodup := by
  unfold dedupExact
  have h : ∀ acc : List String, acc.Nodup → (xs.foldl appendIfNew acc).Nodup := by
    induction xs with
    | nil => exact fun acc h => h
    | cons x rest ih =>
      intro acc hacc
      simp only [List.foldl_cons]
      exact ih _ (appendIfNew_nodup acc x hacc)
  exact h [] List.nodup_nil

theorem extractKeywords_nodup (low : String) : (extractKeywords low).Nodup := by
  unfold extractKeywords
  exact foldl_appendIfNew_nodup _ scamKeywords [] List.nodup_nil

theorem extractKeywords_empty (low : String)
    (h : ∀ kw ∈ scamKeywords, isSubstr kw.toList low.toList = false) :
    extractKeywords low = [] := by
  unfold extractKeywords
  have hgen : ∀ (ks : List String) (acc : List String),
      (∀ kw ∈ ks, isSubstr kw.toList low.toList = false) →
      (ks.foldl (fun acc kw =>
        if isSubstr kw.toList low.toList then appendIfNew acc kw else acc) acc) = acc := by
    intro ks
    induction ks with
    | nil => exact fun acc _ => rfl
    | cons k rest ih =>
      intro acc hk
      simp only [List.foldl_cons]
      rw [if_neg (by simp only [Bool.not_eq_true]; exact hk k (List.mem_cons_self k rest))]
      exact ih acc (fun kw hkw => hk kw (List.mem_cons_of_mem k hkw))
  exact hgen scamKeywords [] h

theorem applyTriggers_frame (ts : List String) (st : MoodState) :
    (applyTriggers st ts).activePersonaKey = st.activePersonaKey ∧
    (applyTriggers st ts).handoffTriggered = st.handoffTriggered := by
  induction ts generalizing st with
  | nil => exact ⟨rfl, rfl⟩
  | cons t rest ih =>
    unfold applyTriggers
    split
    · exact ih _
    · split
      · split
        · exact ⟨rfl, rfl⟩
        · exact ⟨rfl, rfl⟩
      · exact ih _

theorem update_mood_switch (st : MoodState) (msg : String) (ents : Option Bundle)
    (alert rand : Bool) (hf : st.handoffTriggered = false)
    (hcond : (anyWordIn ["police", "jail", "arrest", "warrant"] (lowerStr msg) = true ∧
        (st.currentMood = "WORRIED" ∨ st.currentMood = "ANXIOUS")) ∨ alert = true) :
    update_mood st msg ents alert rand =
      { st with activePersonaKey := "son", handoffTriggered := true,
                currentMood := "AGGRESSIVE" } := by
  unfold update_mood
  rw [if_pos]
  simp only [hf, Bool.not_false, Bool.true_and, Bool.or_eq_true, Bool.and_eq_true]
  rcases hcond with ⟨ha, hm⟩ | hal
  · left
    refine ⟨ha, ?_⟩
    rcases hm with h | h <;> simp [h]
  · right; exact hal

theorem update_mood_preserved (st : MoodState) (msg : String) (ents : Option Bundle)
    (alert rand : Bool) (hf : st.handoffTriggered = true) :
    (update_mood st msg ents alert rand).activePersonaKey = st.activePersonaKey ∧
    (update_mood st msg ents alert rand).handoffTriggered = true := by
  unfold update_mood
  rw [if_neg (by simp [hf])]
  exact ⟨(applyTriggers_frame _ _).1, ((applyTriggers_frame _ _).2).trans hf⟩

theorem applyTurns_preserved (turns : List (String × Option Bundle × Bool × Bool))
    (st : MoodState) (hf : st.handoffTriggered = true) :
    (applyTurns st turns).activePersonaKey = st.activePersonaKey ∧
    (applyTurns st turns).handoffTriggered = true := by
  induction turns generalizing st with
  | nil => exact ⟨rfl, hf⟩
  | cons t rest ih =>
    obtain ⟨h1, h2⟩ := update_mood_preserved st t.1 t.2.1 t.2.2.1 t.2.2.2 hf
    obtain ⟨h3, h4⟩ := ih (update_mood st t.1 t.2.1 t.2.2.1 t.2.2.2) h2
    exact ⟨h3.trans h1, h4⟩

theorem findRow_append_self (reg : List HiveRecord) (r : HiveRecord) (v : String)
    (hrv : (r.value == v) = true) (h : findRow reg v = none) :
    findRow (reg ++ [r]) v = some r := by
  induction reg with
  | nil => simp [findRow, hrv]
  | cons a rest ih =>
    simp only [findRow] at h
    by_cases hav : (a.value == v) = true
    · rw [if_pos hav] at h
      exact absurd h (by simp)
    · rw [if_neg hav] at h
      simpa [findRow, hav] using ih h

theorem findRow_append_some (reg : List HiveRecord) (r0 r : HiveRecord) (v : String)
    (h : findRow reg v = some r) : findRow (reg ++ [r0]) v = some r := by
  induction reg with
  | nil => simp [findRow] at h
  | cons a rest ih =>
    by_cases hav : (a.value == v) = true
    · simp only [findRow, hav, if_pos] at h
      simp [findRow, hav, h]
    · simp only [findRow] at h
      rw [if_neg hav] at h
      simpa [findRow, hav] using ih h

theorem findRow_updateFirst (reg : List HiveRecord) (v : String) (now : Nat)
    (r : HiveRecord) (h : findRow reg v = some r) :
    findRow (updateFirst reg v now) v =
      some { r with sightingCount := r.sightingCount + 1, lastSeen := now,
                    riskTenths := r.riskTenths + 1 } := by
  induction reg with
  | nil => simp [findRow] at h
  | cons a rest ih =>
    by_cases hav : (a.value == v) = true
    · have ha : a = r := by simpa [findRow, hav] using h
      subst ha
      simp [updateFirst, findRow, hav]
    · simp only [findRow] at h
      rw [if_neg hav] at h
      simp only [updateFirst]
      rw [if_neg hav]
      simpa [findRow, hav] using ih h

theorem sightingCountOf_updateFirst_ge (reg : List HiveRecord) (v w : String) (now : Nat) :
    sightingCountOf reg w ≤ sightingCountOf (updateFirst reg v now) w := by
  induction reg with
  | nil => simp [updateFirst]
  | cons a rest ih =>
    by_cases hav : (a.value == v) = true
    · by_cases haw : (a.value == w) = true
      · simp [updateFirst, sightingCountOf, findRow, hav, haw]
      · simp [updateFirst, sightingCountOf, findRow, hav, haw]
    · by_cases haw : (a.value == w) = true
      · simp [updateFirst, sightingCountOf, findRow, hav, haw]
      · simpa [updateFirst, sightingCountOf, findRow, hav, haw] using ih

theorem sightingCountOf_update_ge (reg : List HiveRecord) (v t : String) (now : Nat)
    (w : String) :
    sightingCountOf reg w ≤ sightingCountOf (update_hive_mind reg v t now) w := by
  unfold update_hive_mind
  cases hf : findRow reg v with
  | some r => exact sightingCountOf_updateFirst_ge reg v w now
  | none =>
    unfold sightingCountOf
    cases hw : findRow reg w with
    | some r => rw [findRow_append_some reg _ r w hw]
    | none => simp

theorem sightingCountOf_update_self (reg : List HiveRecord) (v t : String) (now : Nat) :
    1 ≤ sightingCountOf (update_hive_mind reg v t now) v := by
  cases hf : findRow reg v with
  | some r =>
    unfold update_hive_mind
    rw [hf]
    unfold sightingCountOf
    rw [findRow_updateFirst reg v now r hf]
    simp
  | none =>
    unfold update_hive_mind
    rw [hf]
    unfold sightingCountOf
    rw [findRow_append_self reg _ v (by simp) hf]

theorem recordAll_count_ge (cs : List (String × String × Nat)) (reg : List HiveRecord)
    (w : String) : sightingCountOf reg w ≤ sightingCountOf (recordAll reg cs) w := by
  induction cs generalizing reg with
  | nil => exact le_refl _
  | cons c rest ih =>
    exact le_trans (sightingCountOf_update_ge reg c.1 c.2.1 c.2.2 w)
      (ih (update_hive_mind reg c.1 c.2.1 c.2.2))

theorem recordAll_count_pos (cs : List (String × String × Nat)) (reg : List HiveRecord)
    (v : String) (h : ∃ c ∈ cs, c.1 = v) :
    1 ≤ sightingCountOf (recordAll reg cs) v := by
  induction cs generalizing reg with
  | nil => obtain ⟨c, hc, _⟩ := h; cases hc
  | cons c rest ih =>
    obtain ⟨c0, hc0, hv⟩ := h
    rcases List.mem_cons.mp hc0 with heq | hmem
    · subst heq
      subst hv
      exact le_trans (sightingCountOf_update_self reg c0.1 c0.2.1 c0.2.2)
        (recordAll_count_ge rest _ c0.1)
    · exact ih _ ⟨c0, hmem, hv⟩

theorem updateFirst_length (reg : List HiveRecord) (v : String) (now : Nat) :
    (updateFirst reg v now).length = reg.length := by
  induction reg with
  | nil => rfl
  | cons a rest ih =>
    unfold updateFirst
    split
    · simp
    · simpa using ih

theorem updateFirst_frame (reg : List HiveRecord) (v : String) (now : Nat) (i : Nat) :
    ((updateFirst reg v now)[i]?).map (fun r => (r.value, r.etype, r.firstSeen)) =
      (reg[i]?).map (fun r => (r.value, r.etype, r.firstSeen)) := by
  induction reg generalizing i with
  | nil => simp [updateFirst]
  | cons a rest ih =>
    unfold updateFirst
    split
    · cases i <;> simp
    · cases i with
      | zero => simp
      | succ j => simpa using ih j

theorem updateFirst_nonmatch (reg : List HiveRecord) (v : String) (now : Nat) (i : Nat)
    (r0 : HiveRecord) (h : reg[i]? = some r0) (hne : r0.value ≠ v) :
    (updateFirst reg v now)[i]? = some r0 := by
  induction reg generalizing i with
  | nil => simp at h
  | cons a rest ih =>
    cases i with
    | zero =>
      simp only [List.getElem?_cons_zero, Option.some.injEq] at h
      subst h
      unfold updateFirst
      rw [if_neg (by simpa using hne)]
      simp
    | succ j =>
      simp only [List.getElem?_cons_succ] at h
      unfold updateFirst
      split
      · simpa using h
      · simpa using ih j h

/-! ## Claim theorems -/

/-- C3 (counterexample): at a history length that has reached the hard cap
of 20, a bundle containing all four financial kinds makes
analyze_conversation_for_termination end with reason INTEL_COMPLETE, not
MAX_TURNS — the hard cap is not the first rule applied, contradicting the
claim that reaching the maximum yields MAX_TURNS regardless of entity
freshness (and no branch ever yields STALE_INTERACTION). -/
theorem C3_counterexample :
    (analyze_conversation_for_termination 20 fullIntelBundle).2.1 = "INTEL_COMPLETE" ∧
    (analyze_conversation_for_termination 20 fullIntelBundle).2.1 ≠ "MAX_TURNS" := by
  decide

/-- C3 (amended): the per-turn termination decision applies, in order with
first match winning: empty history continues; an intel score of at least
3/4 with at least 5 turns ends with INTEL_COMPLETE; otherwise at least 20
turns ends with MAX_TURNS; otherwise continue. No staleness rule exists and
the reason STALE_INTERACTION is never produced. -/
theorem C3_termination_rules (h : Nat) (e : Bundle) :
    (0 < h → 3 ≤ intelScore e → 5 ≤ h →
      analyze_conversation_for_termination h e = (true, "INTEL_COMPLETE", intelScore e))
  ∧ (0 < h → intelScore e < 3 → 20 ≤ h →
      analyze_conversation_for_termination h e = (true, "MAX_TURNS", intelScore e))
  ∧ (analyze_conversation_for_termination h e).2.1 ≠ "STALE_INTERACTION" := by
  refine ⟨?_, ?_, ?_⟩
  · intro h0 hs h5
    simp only [analyze_conversation_for_termination]
    rw [if_neg (by omega), if_pos ⟨hs, h5⟩]
  · intro h0 hs h20
    simp only [analyze_conversation_for_termination]
    rw [if_neg (by omega), if_neg (fun hc => absurd hc.1 (not_le.mpr hs)), if_pos h20]
  · simp only [analyze_conversation_for_termination]
    split
    · exact (by decide : ("CONTINUE" : String) ≠ "STALE_INTERACTION")
    · split
      · exact (by decide : ("INTEL_COMPLETE" : String) ≠ "STALE_INTERACTION")
      · split
        · exact (by decide : ("MAX_TURNS" : String) ≠ "STALE_INTERACTION")
        · exact (by decide : ("CONTINUE" : String) ≠ "STALE_INTERACTION")

theorem C3_termination_rules_witness :
    analyze_conversation_for_termination 20 fullIntelBundle = (true, "INTEL_COMPLETE", 4) ∧
    analyze_conversation_for_termination 20 emptyBundle = (true, "MAX_TURNS", 0) := by
  constructor
  · exact ((C3_termination_rules 20 fullIntelBundle).1 (by decide) (by decide)
      (by decide)).trans (by decide)
  · exact ((C3_termination_rules 20 emptyBundle).2.1 (by decide) (by decide)
      (by decide)).trans (by decide)

/-- C4 (counterexample): in the dispatch branch of the inactivity monitor,
the callbackSent flag is not set (nor persisted) before the network
delivery step: the network send strictly precedes both. -/
theorem C4_counterexample :
    ¬ (idxOfEvent .setCallbackSentFlag dispatchTrace <
         idxOfEvent .netSendCallback dispatchTrace ∧
       idxOfEvent .persistSessionState dispatchTrace <
         idxOfEvent .netSendCallback dispatchTrace) := by
  decide

/-- C4 (amended): whenever the monitor dispatches, the network delivery
call comes first and only afterwards is callbackSent set and the session
state persisted; a monitor that observes callbackSent already true
dispatches nothing, so at-most-once holds against monitors that fire after
the flag was recorded, not through a set-before-send discipline. -/
theorem C4_flag_set_after_send (sActive superseded cbSent elapsedOk : Bool) :
    (MonEvent.netSendCallback ∈
        monitor_inactivity_and_callback sActive superseded cbSent elapsedOk →
      idxOfEvent .netSendCallback
          (monitor_inactivity_and_callback sActive superseded cbSent elapsedOk) <
        idxOfEvent .setCallbackSentFlag
          (monitor_inactivity_and_callback sActive superseded cbSent elapsedOk) ∧
      idxOfEvent .setCallbackSentFlag
          (monitor_inactivity_and_callback sActive superseded cbSent elapsedOk) <
        idxOfEvent .persistSessionState
          (monitor_inactivity_and_callback sActive superseded cbSent elapsedOk))
  ∧ (cbSent = true →
      MonEvent.netSendCallback ∉
        monitor_inactivity_and_callback sActive superseded cbSent elapsedOk) := by
  cases sActive <;> cases superseded <;> cases cbSent <;> cases elapsedOk <;> decide

theorem C4_flag_set_after_send_witness :
    (idxOfEvent .netSendCallback dispatchTrace < idxOfEvent .setCallbackSentFlag dispatchTrace ∧
     idxOfEvent .setCallbackSentFlag dispatchTrace <
       idxOfEvent .persistSessionState dispatchTrace)
  ∧ MonEvent.netSendCallback ∉ monitor_inactivity_and_callback true false true true := by
  exact ⟨(C4_flag_set_after_send true false false true).1 (by decide),
         (C4_flag_set_after_send true false true true).2 rfl⟩

/-- C5: a superseded inactivity timer that fires is a no-op: after starting
a generation-1 monitor and then a generation-2 monitor, firing the
generation-1 monitor leaves the session state (including the count of
dispatched reports) unchanged; likewise any firing that observes
callbackSent already true changes nothing. -/
theorem C5_superseded_timer_noop (s : SessionMon) (ts1 ts2 : Nat) (elapsedOk : Bool)
    (hlt : ts1 < ts2) :
    fireMonitor (startMonitor (startMonitor s ts1) ts2) ts1 elapsedOk
      = startMonitor (startMonitor s ts1) ts2
  ∧ (∀ (s2 : SessionMon) (ts : Nat) (e : Bool), s2.callbackSent = true →
      fireMonitor s2 ts e = s2) := by
  constructor
  · simp [startMonitor, fireMonitor, hlt]
  · intro s2 ts e hcb
    obtain ⟨ats, cb, n⟩ := s2
    simp only at hcb
    subst hcb
    cases ats with
    | none => rfl
    | some stored =>
      simp only [fireMonitor]
      split <;> rfl

theorem C5_superseded_timer_noop_witness :
    fireMonitor (startMonitor (startMonitor ⟨none, false, 0⟩ 1) 2) 1 true
      = startMonitor (startMonitor ⟨none, false, 0⟩ 1) 2
  ∧ fireMonitor ⟨some 5, true, 3⟩ 5 true = ⟨some 5, true, 3⟩ := by
  obtain ⟨h1, h2⟩ := C5_superseded_timer_noop ⟨none, false, 0⟩ 1 2 true (by decide)
  exact ⟨h1, h2 ⟨some 5, true, 3⟩ 5 true rfl⟩

/-- C6: observing a new financial entity in each cooperative-leaning mood
does not put the controller in FAKE_ERROR: from COOPERATIVE the appended
failure trigger transitions to WORRIED, and from ANXIOUS, HOPEFUL and
WORRIED the failure trigger is absent from the transition table so the
mood is unchanged — contradicting the documented forced FAKE_ERROR state. -/
theorem C6_financial_no_fake_error :
    (update_mood coopMoodState "" (some financialBundle) false false).currentMood = "WORRIED"
  ∧ (update_mood coopMoodState "" (some financialBundle) false false).currentMood ≠ "FAKE_ERROR"
  ∧ (update_mood ⟨"ANXIOUS", "elderly", false, false, []⟩ "" (some financialBundle)
       false false).currentMood = "ANXIOUS"
  ∧ (update_mood ⟨"HOPEFUL", "elderly", false, false, []⟩ "" (some financialBundle)
       false false).currentMood = "HOPEFUL"
  ∧ (update_mood ⟨"WORRIED", "elderly", false, false, []⟩ "" (some financialBundle)
       false false).currentMood = "WORRIED" := by
  decide

/-- C7: the persona handoff is one-way and monotonic: when the handoff has
not yet fired, an aggression keyword in the WORRIED or ANXIOUS mood, or a
hive-mind alert, switches the active persona to the confrontational son
identity with mood AGGRESSIVE; once the handoff flag is set, update_mood on
any later turn (the flag is consulted before ordinary trigger evaluation)
never changes the persona key or clears the flag, over whole conversations
as well, and reset_mood also leaves both untouched. -/
theorem C7_handoff_monotonic :
    (∀ (st : MoodState) (msg : String) (ents : Option Bundle) (alert rand : Bool),
       st.handoffTriggered = false →
       ((anyWordIn ["police", "jail", "arrest", "warrant"] (lowerStr msg) = true ∧
          (st.currentMood = "WORRIED" ∨ st.currentMood = "ANXIOUS")) ∨ alert = true) →
       update_mood st msg ents alert rand =
         { st with activePersonaKey := "son", handoffTriggered := true,
                   currentMood := "AGGRESSIVE" })
  ∧ (∀ (st : MoodState) (msg : String) (ents : Option Bundle) (alert rand : Bool),
       st.handoffTriggered = true →
       (update_mood st msg ents alert rand).activePersonaKey = st.activePersonaKey ∧
       (update_mood st msg ents alert rand).handoffTriggered = true)
  ∧ (∀ (st : MoodState) (turns : List (String × Option Bundle × Bool × Bool)),
       st.handoffTriggered = true →
       (applyTurns st turns).activePersonaKey = st.activePersonaKey ∧
       (applyTurns st turns).handoffTriggered = true)
  ∧ (∀ st : MoodState, (reset_mood st).activePersonaKey = st.activePersonaKey ∧
       (reset_mood st).handoffTriggered = st.handoffTriggered) :=
  ⟨update_mood_switch, update_mood_preserved,
   fun st turns => applyTurns_preserved turns st, fun _ => ⟨rfl, rfl⟩⟩

theorem C7_handoff_monotonic_witness :
    update_mood ⟨"WORRIED", "elderly", false, false, []⟩ "police aa rahi hai" none false false
      = ⟨"AGGRESSIVE", "son", true, false, []⟩
  ∧ (update_mood ⟨"AGGRESSIVE", "son", true, false, []⟩ "ok sir I will cooperate" none
       false false).activePersonaKey = "son"
  ∧ (applyTurns ⟨"AGGRESSIVE", "son", true, false, []⟩
       [("ok sir I will cooperate", none, false, false)]).activePersonaKey = "son"
  ∧ (reset_mood ⟨"AGGRESSIVE", "son", true, false, []⟩).activePersonaKey = "son" := by
  refine ⟨(C7_handoff_monotonic.1 _ _ none false false rfl (Or.inl ⟨by decide, Or.inl rfl⟩)).trans rfl,
          (C7_handoff_monotonic.2.1 _ "ok sir I will cooperate" none false false rfl).1,
          ((C7_handoff_monotonic.2.2.1 _ _ rfl).1).trans rfl,
          ((C7_handoff_monotonic.2.2.2 _).1).trans rfl⟩

/-- C8: hive-mind record semantics. An unseen value is inserted with
sightingCount 1 and riskScore 0.5 (5 tenths); a seen value has its
sightingCount incremented by exactly 1 and its riskScore raised by exactly
0.1 (1 tenth) with no upper cap; a single record call never decreases any
sightingCount, so along any sequence of record calls each sightingCount is
monotonically non-decreasing, and once a value has been recorded its
sightingCount stays at least 1. -/
theorem C8_record_semantics :
    (∀ (reg : List HiveRecord) (v t : String) (now : Nat), findRow reg v = none →
      findRow (update_hive_mind reg v t now) v = some ⟨v, t, now, now, 1, 5⟩)
  ∧ (∀ (reg : List HiveRecord) (v t : String) (now : Nat) (r : HiveRecord),
      findRow reg v = some r →
      findRow (update_hive_mind reg v t now) v =
        some { r with sightingCount := r.sightingCount + 1, lastSeen := now,
                      riskTenths := r.riskTenths + 1 })
  ∧ (∀ (reg : List HiveRecord) (v t : String) (now : Nat) (w : String),
      sightingCountOf reg w ≤ sightingCountOf (update_hive_mind reg v t now) w)
  ∧ (∀ (cs : List (String × String × Nat)) (reg : List HiveRecord) (w : String),
      sightingCountOf reg w ≤ sightingCountOf (recordAll reg cs) w)
  ∧ (∀ (cs : List (String × String × Nat)) (reg : List HiveRecord) (v : String),
      (∃ c ∈ cs, c.1 = v) → 1 ≤ sightingCountOf (recordAll reg cs) v) := by
  refine ⟨?_, ?_, sightingCountOf_update_ge, recordAll_count_ge, recordAll_count_pos⟩
  · intro reg v t now h
    unfold update_hive_mind
    rw [h]
    exact findRow_append_self reg _ v (by simp) h
  · intro reg v t now r h
    unfold update_hive_mind
    rw [h]
    exact findRow_updateFirst reg v now r h

theorem C8_record_semantics_witness :
    findRow (update_hive_mind [] "pay@ybl" "upiIds" 3) "pay@ybl"
      = some ⟨"pay@ybl", "upiIds", 3, 3, 1, 5⟩
  ∧ findRow (update_hive_mind oneRowRegistry "pay@ybl" "upiIds" 9) "pay@ybl"
      = some ⟨"pay@ybl", "upiIds", 3, 9, 2, 6⟩
  ∧ 1 ≤ sightingCountOf (recordAll [] [("pay@ybl", "upiIds", 3)]) "pay@ybl" := by
  refine ⟨C8_record_semantics.1 [] "pay@ybl" "upiIds" 3 rfl, ?_, ?_⟩
  · exact (C8_record_semantics.2.1 oneRowRegistry "pay@ybl" "upiIds" 9
      ⟨"pay@ybl", "upiIds", 3, 3, 1, 5⟩ rfl).trans rfl
  · exact C8_record_semantics.2.2.2.2 [("pay@ybl", "upiIds", 3)] [] "pay@ybl"
      ⟨("pay@ybl", "upiIds", 3), by simp, rfl⟩

/-- C10: frame conditions of update_hive_mind. The registry never shrinks;
when the value is already present the row count is unchanged; every
existing row keeps its value, type and first_seen columns (only
sighting_count, last_seen and risk_score may change); and a row whose
value differs from the recorded one is left entirely unchanged — so no
registry row is ever deleted or re-keyed by the update operation. -/
theorem C10_update_frame (reg : List HiveRecord) (v t : String) (now : Nat) :
    reg.length ≤ (update_hive_mind reg v t now).length
  ∧ ((findRow reg v).isSome = true → (update_hive_mind reg v t now).length = reg.length)
  ∧ (∀ i : Nat, i < reg.length →
      ((update_hive_mind reg v t now)[i]?).map (fun r => (r.value, r.etype, r.firstSeen)) =
        (reg[i]?).map (fun r => (r.value, r.etype, r.firstSeen)))
  ∧ (∀ (i : Nat) (r0 : HiveRecord), reg[i]? = some r0 → r0.value ≠ v →
      (update_hive_mind reg v t now)[i]? = some r0) := by
  unfold update_hive_mind
  cases hf : findRow reg v with
  | some r =>
    refine ⟨le_of_eq (updateFirst_length reg v now).symm, fun _ => updateFirst_length reg v now,
            fun i _ => updateFirst_frame reg v now i,
            fun i r0 h hne => updateFirst_nonmatch reg v now i r0 h hne⟩
  | none =>
    refine ⟨by simp, by simp [hf], ?_, ?_⟩
    · intro i hi
      simp [List.getElem?_append, hi]
    · intro i r0 h hne
      have hi : i < reg.length := by
        by_contra hni
        rw [List.getElem?_eq_none (by omega)] at h
        cases h
      simp [List.getElem?_append, hi, h]

theorem C10_update_frame_witness :
    oneRowRegistry.length ≤ (update_hive_mind oneRowRegistry "x@y" "upiIds" 7).length
  ∧ (update_hive_mind oneRowRegistry "pay@ybl" "upiIds" 9).length = oneRowRegistry.length
  ∧ ((update_hive_mind oneRowRegistry "pay@ybl" "upiIds" 9)[0]?).map
      (fun r => (r.value, r.etype, r.firstSeen)) =
      (oneRowRegistry[0]?).map (fun r => (r.value, r.etype, r.firstSeen))
  ∧ (update_hive_mind oneRowRegistry "x@y" "upiIds" 7)[0]?
      = some ⟨"pay@ybl", "upiIds", 3, 3, 1, 5⟩ := by
  refine ⟨(C10_update_frame oneRowRegistry "x@y" "upiIds" 7).1,
          (C10_update_frame oneRowRegistry "pay@ybl" "upiIds" 9).2.1 rfl,
          (C10_update_frame oneRowRegistry "pay@ybl" "upiIds" 9).2.2.1 0 (by decide),
          (C10_update_frame oneRowRegistry "x@y" "upiIds" 7).2.2.2 0
            ⟨"pay@ybl", "upiIds", 3, 3, 1, 5⟩ (by decide) (by decide)⟩

/-- C2 (counterexample): on input "scam@fakebank Scam@fakebank" the
deterministic extractor keeps both spellings in upiIds, which are equal
under case-insensitive comparison — deduplication within regex_extract is
exact-match only, not case-insensitive. -/
theorem C2_counterexample :
    (regex_extract ciDupText).upiIds = ["scam@fakebank", "Scam@fakebank"]
  ∧ ¬ (((regex_extract ciDupText).upiIds.map lowerStr).Nodup) := by
  decide

/-- C2 (amended): regex_extract is total and pure by construction; for
every input, absence of a pattern yields an empty list for that kind, and
every kind except bankAccounts is duplicate-free under exact
(case-sensitive) comparison — phoneNumbers under the observation that the
matched phones are strip-invariant — but values differing only in case may
coexist within a kind, and bankAccounts may even repeat exactly. -/
theorem C2_extract_total_wellformed (text : String) :
    (urlFindall text = [] → (regex_extract text).phishingLinks = [])
  ∧ (atFindall text = [] →
      (regex_extract text).upiIds = [] ∧ (regex_extract text).emailAddresses = [])
  ∧ ((phoneFindall text = [] ∧ phoneHyphenFindall text = []) →
      (regex_extract text).phoneNumbers = [])
  ∧ (bankFindall text = [] → (regex_extract text).bankAccounts = [])
  ∧ (caseFindall text = [] → (regex_extract text).caseIds = [])
  ∧ (policyFindall text = [] → (regex_extract text).policyNumbers = [])
  ∧ (orderFindall text = [] → (regex_extract text).orderNumbers = [])
  ∧ (amountFindall text = [] → (regex_extract text).amounts = [])
  ∧ ((∀ kw ∈ scamKeywords, isSubstr kw.toList (lowerStr text).toList = false) →
      (regex_extract text).suspiciousKeywords = [])
  ∧ (regex_extract text).upiIds.Nodup
  ∧ (regex_extract text).emailAddresses.Nodup
  ∧ (regex_extract text).phishingLinks.Nodup
  ∧ (regex_extract text).caseIds.Nodup
  ∧ (regex_extract text).policyNumbers.Nodup
  ∧ (regex_extract text).orderNumbers.Nodup
  ∧ (regex_extract text).amounts.Nodup
  ∧ (regex_extract text).suspiciousKeywords.Nodup
  ∧ ((∀ p ∈ dedupExact (phoneFindall text ++ phoneHyphenFindall text), trimStr p = p) →
      (regex_extract text).phoneNumbers.Nodup) := by
  refine ⟨?_, ?_, ?_, ?_, ?_, ?_, ?_, ?_, ?_, ?_, ?_, ?_, ?_, ?_, ?_, ?_, ?_, ?_⟩
  · intro h
    simp [regex_extract, h, dedupExact]
  · intro h
    constructor <;> simp [regex_extract, h, atClassifyLoop]
  · intro h
    simp [regex_extract, extractPhones, h.1, h.2, dedupExact]
  · intro h
    simp [regex_extract, extractBanks, h]
  · intro h
    simp [regex_extract, h, dedupExact]
  · intro h
    simp [regex_extract, h, dedupExact]
  · intro h
    simp [regex_extract, h, dedupExact]
  · intro h
    simp [regex_extract, h, dedupExact]
  · intro h
    simp only [regex_extract]
    exact extractKeywords_empty _ h
  · exact (atClassifyLoop_nodup _ _ [] [] List.nodup_nil List.nodup_nil).1
  · exact (atClassifyLoop_nodup _ _ [] [] List.nodup_nil List.nodup_nil).2
  · exact dedupExact_nodup _
  · exact dedupExact_nodup _
  · exact dedupExact_nodup _
  · exact dedupExact_nodup _
  · exact dedupExact_nodup _
  · exact extractKeywords_nodup _
  · intro htrim
    simp only [regex_extract, extractPhones]
    apply List.Nodup.filter
    have hmap : (dedupExact (phoneFindall text ++ phoneHyphenFindall text)).map trimStr
        = (dedupExact (phoneFindall text ++ phoneHyphenFindall text)).map id :=
      List.map_congr_left (fun p hp => htrim p hp)
    rw [hmap, List.map_id]
    exact dedupExact_nodup _

theorem C2_extract_total_wellformed_witness :
    (regex_extract "").phishingLinks = []
  ∧ (regex_extract "").upiIds = []
  ∧ (regex_extract "").emailAddresses = []
  ∧ (regex_extract "").phoneNumbers = []
  ∧ (regex_extract "").bankAccounts = []
  ∧ (regex_extract "").caseIds = []
  ∧ (regex_extract "").policyNumbers = []
  ∧ (regex_extract "").orderNumbers = []
  ∧ (regex_extract "").amounts = []
  ∧ (regex_extract "").suspiciousKeywords = []
  ∧ (regex_extract "").phoneNumbers.Nodup := by
  obtain ⟨h1, h2, h3, h4, h5, h6, h7, h8, h9, _, _, _, _, _, _, _, _, h18⟩ :=
    C2_extract_total_wellformed ""
  obtain ⟨h2a, h2b⟩ := h2 (by decide)
  exact ⟨h1 (by decide), h2a, h2b, h3 ⟨by decide, by decide⟩, h4 (by decide),
         h5 (by decide), h6 (by decide), h7 (by decide), h8 (by decide),
         h9 (by decide), h18 (by decide)⟩

theorem classify_dot (v : String) (h : v.toList.contains '@' = true)
    (hd : (afterLast '@' v.toList).contains '.' = true) :
    classify_at_sign_match v = "email" := by
  simp only [classify_at_sign_match, h, Bool.not_true, Bool.false_eq_true, if_false]
  rw [if_pos hd]
  split <;> rfl

theorem classify_nodot (v : String) (h : v.toList.contains '@' = true)
    (hd : (afterLast '@' v.toList).contains '.' = false) :
    classify_at_sign_match v = "upi" := by
  simp only [classify_at_sign_match, h, Bool.not_true, Bool.false_eq_true, if_false]
  rw [if_neg (fun hc => by rw [hd] at hc; exact Bool.false_ne_true hc)]

theorem classify_of_at (v : String) (h : v.toList.contains '@' = true) :
    classify_at_sign_match v = "email" ∨ classify_at_sign_match v = "upi" := by
  cases hd : (afterLast '@' v.toList).contains '.' with
  | true => exact Or.inl (classify_dot v h hd)
  | false => exact Or.inr (classify_nodot v h hd)

theorem mem_appendNewCI (adds base : List String) (x : String)
    (h : x ∈ appendNewCI base adds) : x ∈ base ∨ x ∈ adds := by
  induction adds generalizing base with
  | nil => exact Or.inl h
  | cons a rest ih =>
    simp only [appendNewCI, List.foldl_cons] at h
    rcases ih _ h with hx | hx
    · split at hx
      · exact Or.inl hx
      · rcases List.mem_append.mp hx with hx | hx
        · exact Or.inl hx
        · exact Or.inr (by simp [List.mem_singleton.mp hx])
    · exact Or.inr (List.mem_cons_of_mem _ hx)

theorem mergedUpisEmails_inv (u e : List String) :
    (∀ v ∈ (mergedUpisEmails u e).1, classify_at_sign_match v ≠ "email") ∧
    (∀ v ∈ (mergedUpisEmails u e).2, classify_at_sign_match v ≠ "upi") := by
  constructor
  · intro v hv
    simp only [mergedUpisEmails] at hv
    have h2 := (List.mem_filter.mp hv).2
    simpa using h2
  · intro v hv
    simp only [mergedUpisEmails] at hv
    rcases mem_appendNewCI _ _ _ hv with hrem | hrec
    · have h2 := (List.mem_filter.mp hrem).2
      simpa using h2
    · have h2 := (List.mem_filter.mp hrec).2
      have heq : classify_at_sign_match v = "email" := by simpa using h2
      rw [heq]
      decide

theorem mergeKeyGo_spec (xs : List String) (seen : List String) :
    (∀ x ∈ mergeKeyGo seen xs, x ≠ "" ∧ lowerStr x ∉ seen) ∧
    ((mergeKeyGo seen xs).map lowerStr).Nodup := by
  induction xs generalizing seen with
  | nil => exact ⟨by simp [mergeKeyGo], by simp [mergeKeyGo]⟩
  | cons v rest ih =>
    unfold mergeKeyGo
    split
    · rename_i hcond
      rw [Bool.and_eq_true] at hcond
      have hv : v ≠ "" := by simpa using hcond.1
      have hnc : lowerStr v ∉ seen := fun hm => by
        have hb := hcond.2
        simp at hb
        exact hb hm
      constructor
      · intro x hx
        rcases List.mem_cons.mp hx with rfl | hx
        · exact ⟨hv, hnc⟩
        · have hspec := (ih (lowerStr v :: seen)).1 x hx
          exact ⟨hspec.1, fun hm => hspec.2 (List.mem_cons_of_mem _ hm)⟩
      · simp only [List.map_cons, List.nodup_cons]
        refine ⟨?_, (ih _).2⟩
        intro hm
        obtain ⟨y, hy, hly⟩ := List.mem_map.mp hm
        exact ((ih (lowerStr v :: seen)).1 y hy).2 (by rw [hly]; exact List.mem_cons_self _ _)
    · exact ih seen

theorem mergeKeyGo_id (xs : List String) (seen : List String)
    (h1 : ∀ x ∈ xs, x ≠ "") (h2 : (xs.map lowerStr).Nodup)
    (h3 : ∀ x ∈ xs, lowerStr x ∉ seen) : mergeKeyGo seen xs = xs := by
  induction xs generalizing seen with
  | nil => rfl
  | cons v rest ih =>
    have h2' : (lowerStr v :: rest.map lowerStr).Nodup := by
      simpa only [List.map_cons] using h2
    have h2c := List.nodup_cons.mp h2'
    unfold mergeKeyGo
    rw [if_pos (by
      simp only [Bool.and_eq_true, Bool.not_eq_true', beq_eq_false_iff_ne, ne_eq]
      refine ⟨h1 v (List.mem_cons_self _ _), ?_⟩
      rw [← Bool.not_eq_true]
      intro hc
      exact h3 v (List.mem_cons_self _ _) (List.elem_iff.mp hc))]
    congr 1
    apply ih
    · exact fun x hx => h1 x (List.mem_cons_of_mem _ hx)
    · exact h2c.2
    · intro x hx
      simp only [List.mem_cons, not_or]
      refine ⟨?_, h3 x (List.mem_cons_of_mem _ hx)⟩
      intro heq
      exact h2c.1 (heq ▸ List.mem_map_of_mem lowerStr hx)

theorem mergeKey_okCI (a b : List String) : okCI (mergeKey a b) := by
  obtain ⟨hs, hn⟩ := mergeKeyGo_spec (a ++ b) []
  exact ⟨fun x hx => (hs x hx).1, hn⟩

theorem mergeKey_nil_of_okCI (xs : List String) (hx : okCI xs) : mergeKey xs [] = xs := by
  unfold mergeKey
  rw [List.append_nil]
  exact mergeKeyGo_id xs [] hx.1 hx.2 (by simp)

theorem appendNewCI_nil (base : List String) : appendNewCI base [] = base := rfl

theorem appendNewCI_okCI (adds base : List String) (hb : okCI base)
    (ha : ∀ a ∈ adds, a ≠ "") : okCI (appendNewCI base adds) := by
  induction adds generalizing base with
  | nil => exact hb
  | cons a rest ih =>
    simp only [appendNewCI, List.foldl_cons]
    have hstep : okCI (if (base.map lowerStr).contains (lowerStr a) = true
        then base else base ++ [a]) := by
      split
      · exact hb
      · rename_i hc
        constructor
        · intro x hx
          rcases List.mem_append.mp hx with hx | hx
          · exact hb.1 x hx
          · rw [List.mem_singleton.mp hx]
            exact ha a (List.mem_cons_self _ _)
        · simp only [List.map_append, List.map_cons, List.map_nil]
          exact nodup_snoc _ _ (fun hm => hc (List.elem_iff.mpr hm)) hb.2
    exact ih _ hstep (fun x hx => ha x (List.mem_cons_of_mem _ hx))

theorem okCI_filter (p : String → Bool) (xs : List String) (h : okCI xs) :
    okCI (xs.filter p) :=
  ⟨fun x hx => h.1 x (List.mem_of_mem_filter hx),
   h.2.sublist ((List.filter_sublist xs).map lowerStr)⟩

theorem mergedUpisEmails_okCI (u e : List String) (hu : okCI u) (he : okCI e) :
    okCI (mergedUpisEmails u e).1 ∧ okCI (mergedUpisEmails u e).2 := by
  simp only [mergedUpisEmails]
  have hupis1 : okCI (appendNewCI u
      (e.filter (fun x => classify_at_sign_match x == "upi"))) :=
    appendNewCI_okCI _ _ hu (fun a ha => he.1 a (List.mem_of_mem_filter ha))
  exact ⟨okCI_filter _ _ hupis1,
         appendNewCI_okCI _ _ (okCI_filter _ _ he)
           (fun a ha => hupis1.1 a (List.mem_of_mem_filter ha))⟩

theorem mergedUpisEmails_id (u e : List String)
    (hu : ∀ v ∈ u, classify_at_sign_match v ≠ "email")
    (he : ∀ v ∈ e, classify_at_sign_match v ≠ "upi") :
    mergedUpisEmails u e = (u, e) := by
  have hf1 : e.filter (fun x => classify_at_sign_match x == "upi") = [] :=
    List.filter_eq_nil_iff.mpr (fun x hx => by simpa using he x hx)
  have hf2 : e.filter (fun x => !(classify_at_sign_match x == "upi")) = e :=
    List.filter_eq_self.mpr (fun x hx => by simpa using he x hx)
  have hf3 : u.filter (fun x => classify_at_sign_match x == "email") = [] :=
    List.filter_eq_nil_iff.mpr (fun x hx => by simpa using hu x hx)
  have hf4 : u.filter (fun x => !(classify_at_sign_match x == "email")) = u :=
    List.filter_eq_self.mpr (fun x hx => by simpa using hu x hx)
  simp only [mergedUpisEmails]
  rw [hf1, appendNewCI_nil, hf3, hf4, hf2, appendNewCI_nil]

theorem merge_inv (rx llm : Bundle) : bundleInv (merge_extraction_results rx llm) := by
  unfold bundleInv
  simp only [merge_extraction_results]
  refine ⟨mergeKey_okCI _ _, ?_, mergeKey_okCI _ _, mergeKey_okCI _ _, ?_,
          mergeKey_okCI _ _, mergeKey_okCI _ _, mergeKey_okCI _ _, mergeKey_okCI _ _,
          mergeKey_okCI _ _, ?_, ?_⟩
  · exact (mergedUpisEmails_okCI _ _ (mergeKey_okCI _ _) (mergeKey_okCI _ _)).1
  · exact (mergedUpisEmails_okCI _ _ (mergeKey_okCI _ _) (mergeKey_okCI _ _)).2
  · exact (mergedUpisEmails_inv _ _).1
  · exact (mergedUpisEmails_inv _ _).2

theorem merge_empty (B : Bundle) (h : bundleInv B) :
    merge_extraction_results B emptyBundle = { B with rawExtraction := "" } := by
  obtain ⟨h1, h2, h3, h4, h5, h6, h7, h8, h9, h10, h11, h12⟩ := h
  simp only [merge_extraction_results, emptyBundle]
  rw [mergeKey_nil_of_okCI _ h2, mergeKey_nil_of_okCI _ h5,
      mergedUpisEmails_id _ _ h11 h12,
      mergeKey_nil_of_okCI _ h1, mergeKey_nil_of_okCI _ h3, mergeKey_nil_of_okCI _ h4,
      mergeKey_nil_of_okCI _ h6, mergeKey_nil_of_okCI _ h7, mergeKey_nil_of_okCI _ h8,
      mergeKey_nil_of_okCI _ h9, mergeKey_nil_of_okCI _ h10]
  simp

/-- C1: classification of at-sign values is a pure function of structure:
with an at sign present, a dot in the part after the last at sign forces
the email classification (whatever the final segment is), its absence
forces the UPI classification; and after merge_extraction_results the rule
has been re-applied in both directions, so every at-bearing value left in
upiIds classifies as upi and every at-bearing value left in emailAddresses
classifies as email, whichever side (deterministic or AI) proposed it. -/
theorem C1_at_classification (s : String) (A B : Bundle)
    (hs : s.toList.contains '@' = true) :
    ((afterLast '@' s.toList).contains '.' = true → classify_at_sign_match s = "email")
  ∧ ((afterLast '@' s.toList).contains '.' = false → classify_at_sign_match s = "upi")
  ∧ (∀ v ∈ (merge_extraction_results A B).upiIds, v.toList.contains '@' = true →
      classify_at_sign_match v = "upi")
  ∧ (∀ v ∈ (merge_extraction_results A B).emailAddresses, v.toList.contains '@' = true →
      classify_at_sign_match v = "email") := by
  refine ⟨classify_dot s hs, classify_nodot s hs, ?_, ?_⟩
  · intro v hv hat
    have hne := (mergedUpisEmails_inv (mergeKey A.upiIds B.upiIds)
      (mergeKey A.emailAddresses B.emailAddresses)).1 v
      (by simpa [merge_extraction_results] using hv)
    rcases classify_of_at v hat with he | hu
    · exact absurd he hne
    · exact hu
  · intro v hv hat
    have hne := (mergedUpisEmails_inv (mergeKey A.upiIds B.upiIds)
      (mergeKey A.emailAddresses B.emailAddresses)).2 v
      (by simpa [merge_extraction_results] using hv)
    rcases classify_of_at v hat with he | hu
    · exact he
    · exact absurd hu hne

theorem C1_at_classification_witness :
    classify_at_sign_match "fraud@gmail.com" = "email"
  ∧ classify_at_sign_match "x@y" = "upi"
  ∧ classify_at_sign_match "pay@ybl" = "upi"
  ∧ classify_at_sign_match "a@b.com" = "email" := by
  refine ⟨(C1_at_classification "fraud@gmail.com" emptyBundle emptyBundle (by decide)).1
            (by decide),
          (C1_at_classification "x@y" emptyBundle emptyBundle (by decide)).2.1 (by decide),
          (C1_at_classification "x@y" upiOnlyBundle emptyBundle (by decide)).2.2.1
            "pay@ybl" (by decide) (by decide),
          (C1_at_classification "x@y" misclassifiedBundle emptyBundle (by decide)).2.2.2
            "a@b.com" (by decide) (by decide)⟩

/-- C9 (counterexample): merge with the empty bundle is not the identity:
a bundle whose upiIds holds the at-dot value "a@b.com" is changed by
merge_extraction_results (the value is reclassified to emailAddresses), so
merge(B, empty) differs from B. -/
theorem C9_counterexample :
    merge_extraction_results misclassifiedBundle emptyBundle ≠ misclassifiedBundle := by
  decide

/-- C9 (amended): merge output is a fixed point of merging with the empty
bundle up to the rawExtraction field, which the second merge resets to the
empty default taken from the LLM side; and merging any bundle satisfying
the merge invariant (per-kind case-insensitive dedup with no empty values,
and structure-consistent upiIds and emailAddresses) with the empty bundle
returns it unchanged except for that same rawExtraction reset. -/
theorem C9_merge_idempotence (A B C : Bundle) (h : bundleInv C) :
    merge_extraction_results (merge_extraction_results A B) emptyBundle
      = { merge_extraction_results A B with rawExtraction := "" }
  ∧ merge_extraction_results C emptyBundle = { C with rawExtraction := "" } :=
  ⟨merge_empty _ (merge_inv A B), merge_empty C h⟩

theorem C9_merge_idempotence_witness :
    merge_extraction_results (merge_extraction_results misclassifiedBundle upiOnlyBundle)
        emptyBundle
      = { merge_extraction_results misclassifiedBundle upiOnlyBundle with rawExtraction := "" }
  ∧ merge_extraction_results upiOnlyBundle emptyBundle
      = { upiOnlyBundle with rawExtraction := "" } :=
  C9_merge_idempotence misclassifiedBundle upiOnlyBundle upiOnlyBundle (by
    unfold bundleInv okCI
    decide)

end Honeypot
